import Mathlib

/-!
Verification of the content-loading pipeline of the blog-app repository
(`src/app/lib/posts.ts`), together with the page-parameter handling of its
HTTP callers (`src/app/page.tsx`, `src/app/posts/[slug]/page.tsx`).

The TypeScript functions are shallowly embedded as Lean functions:

* The filesystem is a value of type `FileSys`: the `fs.readdir` outcome and a
  `fs.readFile` outcome per file name (`none` models an I/O error).
* The external front-matter parser (`gray-matter`) is an explicit parameter of
  type `MatterFn`; `none` models the parser throwing.
* The external markdown renderer (`remark` + `remark-html`) is an explicit
  `String → String` parameter; a concrete renderer modelled from the spec is
  provided for properties about rendered output.
* A JavaScript exception escaping a function is modelled by `Except Unit`.
* JavaScript string comparison (`<` on strings) is modelled by a lexicographic
  comparison of the character sequences, and JS truthiness of an optional
  string field (`undefined` or `""` are falsy) by `truthy`.
* `Array.prototype.sort` is required by ECMAScript 2019 to be stable; since the
  comparator in the source never returns 0, every stable sort produces the same
  output, so the sort is embedded as a stable insertion sort over the
  comparator translated from the source.
-/

namespace Blog

/-- JavaScript `<` on strings, on the underlying character sequences:
lexicographic comparison by character code. -/
def jsStrLtAux : List Char → List Char → Bool
  | [], [] => false
  | [], _ :: _ => true
  | _ :: _, [] => false
  | a :: as, b :: bs =>
    if a < b then true
    else if b < a then false
    else jsStrLtAux as bs

/-- JavaScript `a < b` on strings. -/
def jsStrLt (a b : String) : Bool :=
  jsStrLtAux a.data b.data

/-- JavaScript `a >= b` on strings (for strings, `>=` is the negation of `<`). -/
def jsStrGe (a b : String) : Bool :=
  !(jsStrLt a b)

/-- JS truthiness of a possibly-undefined string value: `undefined` and the
empty string are falsy. -/
def truthy : Option String → Bool
  | none => false
  | some s => !s.data.isEmpty

/-- JS truthiness of a plain string (`""` is falsy). -/
def strTruthy (s : String) : Bool :=
  !s.data.isEmpty

/-- The front-matter map produced by `gray-matter` for one file, restricted to
the keys the pipeline reads.  A key absent from the file is `none`
(JS `undefined`). -/
structure FrontMatter where
  title : Option String
  date : Option String
  excerpt : Option String
  imageUrl : Option String
deriving DecidableEq

/-- The `Post` record of `posts.ts`.  The TypeScript interface declares
`title`, `date`, `excerpt` as `string`, but the single-post path performs no
validation and can construct a post whose fields are `undefined` at runtime,
so they are embedded as `Option String`. -/
structure Post where
  slug : String
  title : Option String
  date : Option String
  excerpt : Option String
  content : String
  imageUrl : String
deriving DecidableEq

/-- The `PaginatedPosts` record of `posts.ts`.  `currentPage` echoes the
caller-supplied page number, which can be any integer. -/
structure PaginatedPosts where
  posts : List Post
  totalPages : Nat
  currentPage : Int
deriving DecidableEq

/-- The observable filesystem under the content directory: the outcome of
`fs.readdir` on the directory (`none` models a directory-read error) and the
outcome of `fs.readFile` per file name (`none` models a file-read error). -/
structure FileSys where
  dirListing : Option (List String)
  readFile : String → Option String

/-- The external front-matter parser (`gray-matter`): splits file contents
into the metadata map and the markdown body; `none` models the parser
throwing on malformed input. -/
abbrev MatterFn := String → Option (FrontMatter × String)

/-- The fixed palette of stock image URLs in `getPlaceholderImage`. -/
def placeholderImages : List String :=
  [ "https://images.unsplash.com/photo-1516259762381-22954d7d3ad2?w=800&auto=format&fit=crop&q=80"
  , "https://images.unsplash.com/photo-1627398242454-45a1465c2479?w=800&auto=format&fit=crop&q=80"
  , "https://images.unsplash.com/photo-1555066931-4365d14bab8c?w=800&auto=format&fit=crop&q=80"
  , "https://images.unsplash.com/photo-1542831371-29b0f74f9713?w=800&auto=format&fit=crop&q=80"
  , "https://images.unsplash.com/photo-1504639725590-34d0984388bd?w=800&auto=format&fit=crop&q=80" ]

/-- The character-code checksum of the slug: the source reduces over the
split-up slug, summing `charCodeAt` of each character. -/
def charSum (slug : String) : Nat :=
  (slug.data.map Char.toNat).sum

/-- The resolver `getPlaceholderImage` from `posts.ts`: index the fixed palette by the
character-code checksum of the slug modulo the palette size. -/
def getPlaceholderImage (slug : String) : String :=
  placeholderImages.getD (charSum slug % placeholderImages.length) ""

/-- The markdown-extension filter of the listing, `fileName.endsWith` with
the `.md` extension, expressed on the character sequence. -/
def endsWithMd (s : String) : Bool :=
  ['.', 'm', 'd'].isSuffixOf s.data

/-- The slug derivation: `fileName.replace` with an end-anchored `.md`
pattern, i.e. strip a trailing `.md`. -/
def stripMdExt (s : String) : String :=
  if endsWithMd s then s.dropRight 3 else s

/-- JS `a || b` where `a` is a possibly-undefined string: the fallback is used
when `a` is `undefined` or empty.  Used for `data.imageUrl || getPlaceholderImage(slug)`. -/
def jsOrDefault (a : Option String) (b : String) : String :=
  match a with
  | none => b
  | some s => if s.data.isEmpty then b else s

/-- The body of the `Promise.all` callback in `getAllPosts` (`posts.ts`
lines 74–113) for one file name: read the file (a read error resolves to the
empty string), skip empty contents, parse front matter, skip the file when a
required field is missing or falsy, otherwise build the `Post` whose `content`
is the unrendered markdown body.  `.error ()` models an exception escaping the
callback (the front-matter parser throwing), which would reject the whole
`Promise.all`. -/
def postOfFile (m : MatterFn) (fs : FileSys) (fileName : String) :
    Except Unit (Option Post) :=
  let slug := stripMdExt fileName
  let fileContents := (fs.readFile fileName).getD ""
  if fileContents.data.isEmpty then .ok none
  else
    match m fileContents with
    | none => .error ()
    | some (data, content) =>
      if truthy data.title && truthy data.date && truthy data.excerpt then
        .ok (some
          { slug := slug
            title := data.title
            date := data.date
            excerpt := data.excerpt
            content := content
            imageUrl := jsOrDefault data.imageUrl (getPlaceholderImage slug) })
      else .ok none

/-- The sort comparator of `getAllPosts`: `(a, b) => (a.date < b.date ? 1 : -1)`.
JS `<` on an `undefined` operand is `false`. -/
def postDateLt (a b : Post) : Bool :=
  match a.date, b.date with
  | some x, some y => jsStrLt x y
  | _, _ => false

/-- The integer returned by the comparator. -/
def jsCompare (a b : Post) : Int :=
  if postDateLt a b then 1 else -1

/-- Whether `a` may precede `b` in the stable sort: the comparator is non-positive. -/
def sortLe (a b : Post) : Bool :=
  decide (jsCompare a b ≤ 0)

/-- Stable insertion of a post into an already-sorted list: `x` is placed
before the first element it may precede. -/
def orderedInsert (x : Post) : List Post → List Post
  | [] => [x]
  | y :: ys => if sortLe x y then x :: y :: ys else y :: orderedInsert x ys

/-- The `.sort((a, b) => (a.date < b.date ? 1 : -1))` call of `getAllPosts`,
embedded as a stable insertion sort (see the header comment: with a comparator
that never returns 0, every ECMAScript 2019 sort produces this output). -/
def sortByDateDesc : List Post → List Post
  | [] => []
  | x :: xs => orderedInsert x (sortByDateDesc xs)

/-- The awaited `Promise.all` over the mapped file names: evaluate `postOfFile` on every
file name; if any callback throws, the whole aggregate rejects. -/
def collectPosts (m : MatterFn) (fs : FileSys) : List String → Except Unit (List (Option Post))
  | [] => .ok []
  | fn :: rest =>
    match postOfFile m fs fn with
    | .error e => .error e
    | .ok p =>
      match collectPosts m fs rest with
      | .error e => .error e
      | .ok ps => .ok (p :: ps)

/-- The repository function `getAllPosts` from `posts.ts`: list the content directory (a directory-read
error resolves to the empty listing), keep the `.md` files, build the posts,
drop the `null`s, and sort by date descending. -/
def getAllPosts (m : MatterFn) (fs : FileSys) : Except Unit (List Post) :=
  let fileNames := fs.dirListing.getD []
  (collectPosts m fs (fileNames.filter endsWithMd)).map fun results =>
    sortByDateDesc (results.filterMap id)

/-- The page-size constant `POSTS_PER_PAGE` from `posts.ts`. -/
def POSTS_PER_PAGE : Nat := 10

/-- Resolution of one `Array.prototype.slice` bound: a negative index counts
from the end of the array and is clamped below by 0; a non-negative index is
clamped above by the length. -/
def jsSliceIndex (len : Nat) (i : Int) : Nat :=
  if i < 0 then ((len : Int) + i).toNat else min i.toNat len

/-- The slice method of JavaScript arrays, with its index semantics. -/
def jsSlice {α : Type} (l : List α) (start stop : Int) : List α :=
  (l.take (jsSliceIndex l.length stop)).drop (jsSliceIndex l.length start)

/-- The pagination function `getPaginatedPosts` from `posts.ts`: call `getAllPosts`, compute
`totalPages = Math.ceil(totalPosts / POSTS_PER_PAGE)` (exact on naturals:
`(n + 9) / 10`), and slice `[(page-1)*10, page*10)`.  The page argument is any
integer; a rejection of `getAllPosts` propagates. -/
def getPaginatedPosts (m : MatterFn) (fs : FileSys) (page : Int) :
    Except Unit PaginatedPosts :=
  (getAllPosts m fs).map fun allPosts =>
    let totalPosts := allPosts.length
    let totalPages := (totalPosts + (POSTS_PER_PAGE - 1)) / POSTS_PER_PAGE
    let startIndex := (page - 1) * (POSTS_PER_PAGE : Int)
    let endIndex := startIndex + (POSTS_PER_PAGE : Int)
    { posts := jsSlice allPosts startIndex endIndex
      totalPages := totalPages
      currentPage := page }

/-- The posts field of `getPaginatedPosts`, with `[]` for a rejection; used to
state concatenation properties across pages. -/
def pagePostsOf (m : MatterFn) (fs : FileSys) (page : Int) : List Post :=
  match getPaginatedPosts m fs page with
  | .ok pg => pg.posts
  | .error _ => []

/-- The single-post lookup `getPostBySlug` from `posts.ts`: read `<slug>.md` (a read error rejects and
is caught, yielding `null`), parse front matter (a parser throw is caught,
yielding `null`), render the body through the markdown renderer, and build the
`Post` without any required-field validation. -/
def getPostBySlug (m : MatterFn) (render : String → String) (fs : FileSys)
    (slug : String) : Option Post :=
  match fs.readFile (slug ++ ".md") with
  | none => none
  | some fileContents =>
    match m fileContents with
    | none => none
    | some (data, content) =>
      some
        { slug := slug
          title := data.title
          date := data.date
          excerpt := data.excerpt
          content := render content
          imageUrl := jsOrDefault data.imageUrl (getPlaceholderImage slug) }

/-- Split a character sequence at newlines (the pieces contain no newline). -/
def splitLines : List Char → List (List Char)
  | [] => [[]]
  | c :: rest =>
    if c = '\n' then [] :: splitLines rest
    else
      match splitLines rest with
      | [] => [[c]]
      | l :: ls => (c :: l) :: ls

/-- Join lines with newline separators. -/
def joinLines : List (List Char) → List Char
  | [] => []
  | [l] => l
  | l :: ls => l ++ '\n' :: joinLines ls

/-- Modelled from the spec: one line of the external Markdown Renderer
(`remark` + `remark-html`, vendored build output, not under `src/`): a line in
markdown heading syntax becomes an `h1` element, any other line is wrapped in a
paragraph element. -/
def renderLine (line : List Char) : List Char :=
  match line with
  | '#' :: ' ' :: rest => '<' :: 'h' :: '1' :: '>' :: (rest ++ ['<', '/', 'h', '1', '>'])
  | _ => '<' :: 'p' :: '>' :: (line ++ ['<', '/', 'p', '>'])

/-- Modelled from the spec: the external Markdown Renderer (`remark` pipeline
with `remark-html`), which converts a markdown body string into HTML.  Each
line is rendered and the lines are rejoined. -/
def renderHtml (body : String) : String :=
  String.mk (joinLines ((splitLines body.data).map renderLine))

/-- Whether a line is in raw markdown heading syntax (starts with `# `). -/
def lineStartsHeading : List Char → Bool
  | '#' :: ' ' :: _ => true
  | _ => false

/-- Scanner for a raw markdown heading: `atStart` records whether the scanner
is at the start of a line. -/
def hasRawHeadingAux : Bool → List Char → Bool
  | _, [] => false
  | atStart, c :: rest =>
    if atStart && (c = '#') && (rest.head? = some ' ') then true
    else hasRawHeadingAux (c = '\n') rest

/-- A string contains raw markdown heading syntax: some line starts with `# `. -/
def hasRawHeading (s : String) : Bool :=
  hasRawHeadingAux true s.data

/-- The post contributed to the listing by one file name, with `none` both for
a skipped file and for a throwing parse; used to state which posts appear in
`getAllPosts`. -/
def validPostOfFile (m : MatterFn) (fs : FileSys) (fileName : String) : Option Post :=
  match postOfFile m fs fileName with
  | .ok o => o
  | .error _ => none

/-- The `Post` built by the list path for a file with parsed contents
`(data, content)`. -/
def mkListPost (fn : String) (data : FrontMatter) (content : String) : Post :=
  { slug := stripMdExt fn
    title := data.title
    date := data.date
    excerpt := data.excerpt
    content := content
    imageUrl := jsOrDefault data.imageUrl (getPlaceholderImage (stripMdExt fn)) }

/-- Modelled from the spec: the `cache(...)` wrapper (React `cache`, an
external library) around `getAllPosts` — compute once per process, reuse
forever, no invalidation.  The cache cell is threaded explicitly: the call
returns the result together with the updated cell. -/
def cachedGetAllPosts (m : MatterFn) (fs : FileSys)
    (cell : Option (Except Unit (List Post))) :
    Except Unit (List Post) × Option (Except Unit (List Post)) :=
  match cell with
  | some r => (r, some r)
  | none =>
    let r := getAllPosts m fs
    (r, some r)

/-- The memo table of the cached `getPaginatedPosts`, keyed by the page
argument. -/
def PagCache : Type := List (Int × Except Unit PaginatedPosts)

/-- Modelled from the spec: the `cache(...)` wrapper around
`getPaginatedPosts`, memoized per distinct page argument for the process
lifetime. -/
def cachedGetPaginatedPosts (m : MatterFn) (fs : FileSys) (page : Int)
    (tbl : PagCache) : Except Unit PaginatedPosts × PagCache :=
  match List.lookup page tbl with
  | some r => (r, tbl)
  | none =>
    let r := getPaginatedPosts m fs page
    (r, (page, r) :: tbl)

/-- The page-parameter handling shared by the home page (`page.tsx`:
`Number(searchParams.page) || 1`) and the listing route (`route` handler:
`Number` of the page query parameter, with `|| 1`).  The query value is modelled by the
integer value of the query string, `none` standing for an absent or
non-numeric parameter (`Number` gives `NaN`, which is falsy); `|| 1` replaces
`NaN` and `0` by 1, and passes every other integer — negative ones
included — through unchanged. -/
def pageFromQuery (q : Option Int) : Int :=
  match q with
  | none => 1
  | some n => if n = 0 then 1 else n

/-! ### Concrete content sets used to instantiate the theorems

The first fixture is the end-to-end scenario of the spec: `a.md`
(date 2024-01-01), `b.md` (date 2024-03-01, missing `excerpt`), `c.md`
(date 2024-02-01), plus an unreadable file and a non-markdown file. -/

def fmA : FrontMatter :=
  { title := some "T1", date := some "2024-01-01", excerpt := some "E1", imageUrl := none }

def fmB : FrontMatter :=
  { title := some "T2", date := some "2024-03-01", excerpt := none, imageUrl := none }

def fmC : FrontMatter :=
  { title := some "T3", date := some "2024-02-01", excerpt := some "E3", imageUrl := some "img3" }

/-- Front-matter parser for the three-file fixture. -/
def matterW : MatterFn := fun c =>
  if c = "A" then some (fmA, "body a")
  else if c = "B" then some (fmB, "body b")
  else if c = "C" then some (fmC, "# head\nbody c")
  else none

/-- Filesystem for the three-file fixture: `broken.md` fails to read,
`notes.txt` is not a markdown file. -/
def fsW : FileSys :=
  { dirListing := some ["a.md", "b.md", "c.md", "broken.md", "notes.txt"]
    readFile := fun n =>
      if n = "a.md" then some "A"
      else if n = "b.md" then some "B"
      else if n = "c.md" then some "C"
      else none }

def postA : Post :=
  { slug := "a", title := some "T1", date := some "2024-01-01", excerpt := some "E1"
    content := "body a", imageUrl := getPlaceholderImage "a" }

def postC : Post :=
  { slug := "c", title := some "T3", date := some "2024-02-01", excerpt := some "E3"
    content := "# head\nbody c", imageUrl := "img3" }

/-- The listing produced by the three-file fixture: `b.md` is dropped
(missing excerpt), `broken.md` is dropped (read error), `notes.txt` is
filtered out, and the remaining posts are sorted by date descending. -/
def postsW : List Post := [postC, postA]

/-- A twelve-post fixture (for out-of-range and negative-page properties):
every file parses, with its contents serving as every front-matter field. -/
def matter12 : MatterFn := fun c =>
  some ({ title := some c, date := some c, excerpt := some c, imageUrl := some c }, c)

def fs12 : FileSys :=
  { dirListing := some ["p01.md", "p02.md", "p03.md", "p04.md", "p05.md", "p06.md",
      "p07.md", "p08.md", "p09.md", "p10.md", "p11.md", "p12.md"]
    readFile := fun n =>
      if n = "p01.md" then some "01"
      else if n = "p02.md" then some "02"
      else if n = "p03.md" then some "03"
      else if n = "p04.md" then some "04"
      else if n = "p05.md" then some "05"
      else if n = "p06.md" then some "06"
      else if n = "p07.md" then some "07"
      else if n = "p08.md" then some "08"
      else if n = "p09.md" then some "09"
      else if n = "p10.md" then some "10"
      else if n = "p11.md" then some "11"
      else if n = "p12.md" then some "12"
      else none }

/-- The post produced by the twelve-post fixture for a given slug and
contents. -/
def post12 (slug c : String) : Post :=
  { slug := slug, title := some c, date := some c, excerpt := some c
    content := c, imageUrl := c }

/-- The listing of the twelve-post fixture, dates descending. -/
def posts12 : List Post :=
  [ post12 "p12" "12", post12 "p11" "11", post12 "p10" "10", post12 "p09" "09"
  , post12 "p08" "08", post12 "p07" "07", post12 "p06" "06", post12 "p05" "05"
  , post12 "p04" "04", post12 "p03" "03", post12 "p02" "02", post12 "p01" "01" ]

/-- A filesystem with a single file whose contents the front-matter parser
rejects (the parse-failure fixture for the single-post path). -/
def fsBad : FileSys :=
  { dirListing := some []
    readFile := fun n => if n = "bad.md" then some "?" else none }

/-! ### String comparison bridge -/

lemma jsStrLtAux_iff (x y : List Char) : jsStrLtAux x y = true ↔ x < y := by
  induction x generalizing y with
  | nil =>
    cases y with
    | nil =>
      simp only [jsStrLtAux, Bool.false_eq_true, false_iff]
      intro h; cases h
    | cons b bs =>
      simp only [jsStrLtAux, true_iff]
      exact List.Lex.nil
  | cons a as ih =>
    cases y with
    | nil =>
      simp only [jsStrLtAux, Bool.false_eq_true, false_iff]
      intro h; cases h
    | cons b bs =>
      simp only [jsStrLtAux]
      by_cases hab : a < b
      · simp only [hab, if_true, true_iff]
        exact List.Lex.rel hab
      · by_cases hba : b < a
        · simp only [hab, hba, if_false, if_true, Bool.false_eq_true, false_iff]
          intro h
          cases h with
          | rel h => exact hab h
          | cons h => exact absurd hba (lt_irrefl a)
        · have heq : a = b := le_antisymm (le_of_not_lt hba) (le_of_not_lt hab)
          subst heq
          simp only [hab, hba, if_false, ih]
          constructor
          · intro h; exact List.Lex.cons h
          · intro h
            cases h with
            | rel h => exact absurd h hab
            | cons h => exact h

lemma jsStrLt_iff (a b : String) : jsStrLt a b = true ↔ a < b := by
  rw [String.lt_iff_toList_lt]
  exact jsStrLtAux_iff a.data b.data

lemma jsStrLt_asymm {a b : String} (h : jsStrLt a b = true) : jsStrLt b a = false := by
  rw [jsStrLt_iff] at h
  rw [← Bool.not_eq_true, jsStrLt_iff]
  exact lt_asymm h

lemma jsStrLt_neg_trans {a b c : String} (h1 : jsStrLt a b = false)
    (h2 : jsStrLt b c = false) : jsStrLt a c = false := by
  rw [← Bool.not_eq_true, jsStrLt_iff] at h1 h2 ⊢
  intro h
  exact h1 (lt_of_lt_of_le h (le_of_not_lt h2))

/-! ### Comparator facts -/

lemma sortLe_eq (a b : Post) : sortLe a b = !(postDateLt a b) := by
  unfold sortLe jsCompare
  cases h : postDateLt a b <;> rfl

lemma sortLe_total (a b : Post) : sortLe a b = true ∨ sortLe b a = true := by
  rw [sortLe_eq, sortLe_eq]
  by_cases h : postDateLt a b = true
  · right
    unfold postDateLt at h ⊢
    cases ha : a.date with
    | none => rw [ha] at h; simp at h
    | some x =>
      cases hb : b.date with
      | none => rw [ha, hb] at h; simp at h
      | some y =>
        rw [ha, hb] at h
        simp [jsStrLt_asymm h]
  · left
    simp [Bool.eq_false_iff.mpr h]

lemma sortLe_trans {a b c : Post} (hb : b.date.isSome)
    (h1 : sortLe a b = true) (h2 : sortLe b c = true) : sortLe a c = true := by
  rw [sortLe_eq] at h1 h2 ⊢
  rw [Bool.not_eq_eq_eq_not, Bool.not_true] at h1 h2 ⊢
  unfold postDateLt at h1 h2 ⊢
  cases ha : a.date with
  | none => rfl
  | some x =>
    cases hc : c.date with
    | none => cases b.date <;> rfl
    | some z =>
      cases hbd : b.date with
      | none => rw [hbd] at hb; simp at hb
      | some y =>
        rw [ha, hbd] at h1
        rw [hbd, hc] at h2
        exact jsStrLt_neg_trans h1 h2

/-! ### The stable sort: permutation and sortedness -/

lemma orderedInsert_perm (x : Post) (l : List Post) :
    (orderedInsert x l).Perm (x :: l) := by
  induction l with
  | nil => exact List.Perm.refl _
  | cons y ys ih =>
    unfold orderedInsert
    by_cases h : sortLe x y = true
    · simp [h]
    · simp only [Bool.eq_false_iff.mpr h, if_false]
      exact (ih.cons y).trans (List.Perm.swap x y ys)

lemma sortByDateDesc_perm (l : List Post) : (sortByDateDesc l).Perm l := by
  induction l with
  | nil => exact List.Perm.refl _
  | cons x xs ih =>
    exact (orderedInsert_perm x (sortByDateDesc xs)).trans (ih.cons x)

lemma pairwise_orderedInsert (x : Post) (l : List Post)
    (hl : l.Pairwise (fun a b => sortLe a b = true))
    (hmem : ∀ y ∈ l, y.date.isSome = true) :
    (orderedInsert x l).Pairwise (fun a b => sortLe a b = true) := by
  induction l with
  | nil => simp [orderedInsert]
  | cons y ys ih =>
    unfold orderedInsert
    by_cases h : sortLe x y = true
    · simp only [h, if_true]
      refine List.Pairwise.cons ?_ hl
      intro z hz
      cases hz with
      | head => exact h
      | tail _ hz =>
        have hy : y.date.isSome = true := hmem y (List.mem_cons_self y ys)
        exact sortLe_trans hy h ((List.pairwise_cons.mp hl).1 z hz)
    · simp only [Bool.eq_false_iff.mpr h, if_false]
      have hyx : sortLe y x = true := by
        cases sortLe_total x y with
        | inl h' => exact absurd h' h
        | inr h' => exact h'
      refine List.Pairwise.cons ?_ ?_
      · intro z hz
        have := (orderedInsert_perm x ys).mem_iff.mp hz
        cases this with
        | head => exact hyx
        | tail _ hz' => exact (List.pairwise_cons.mp hl).1 z hz'
      · exact ih (List.pairwise_cons.mp hl).2
          (fun z hz => hmem z (List.mem_cons_of_mem y hz))

lemma pairwise_sortByDateDesc (l : List Post)
    (hmem : ∀ p ∈ l, p.date.isSome = true) :
    (sortByDateDesc l).Pairwise (fun a b => sortLe a b = true) := by
  induction l with
  | nil => simp [sortByDateDesc]
  | cons x xs ih =>
    unfold sortByDateDesc
    refine pairwise_orderedInsert x _ ?_ ?_
    · exact ih (fun p hp => hmem p (List.mem_cons_of_mem x hp))
    · intro y hy
      exact hmem y (List.mem_cons_of_mem x ((sortByDateDesc_perm xs).mem_iff.mp hy))

/-! ### The listing pipeline -/

lemma collectPosts_ok_filterMap (m : MatterFn) (fs : FileSys) :
    ∀ (ns : List String) (rs : List (Option Post)),
      collectPosts m fs ns = .ok rs →
      rs.filterMap id = ns.filterMap (validPostOfFile m fs) := by
  intro ns
  induction ns with
  | nil =>
    intro rs h
    simp only [collectPosts] at h
    cases h
    rfl
  | cons fn rest ih =>
    intro rs h
    simp only [collectPosts] at h
    cases hp : postOfFile m fs fn with
    | error e => rw [hp] at h; cases h
    | ok p =>
      rw [hp] at h
      cases hc : collectPosts m fs rest with
      | error e => rw [hc] at h; cases h
      | ok ps =>
        rw [hc] at h
        cases h
        have hv : validPostOfFile m fs fn = p := by
          unfold validPostOfFile; rw [hp]
        cases p with
        | none => simp [List.filterMap_cons, hv, ih ps hc]
        | some q => simp [List.filterMap_cons, hv, ih ps hc]

lemma collectPosts_isOk (m : MatterFn) (fs : FileSys) :
    ∀ (ns : List String),
      (∀ fn ∈ ns, (postOfFile m fs fn).isOk = true) →
      ∃ rs, collectPosts m fs ns = .ok rs := by
  intro ns
  induction ns with
  | nil => intro _; exact ⟨[], rfl⟩
  | cons fn rest ih =>
    intro h
    have hfn := h fn (List.mem_cons_self fn rest)
    cases hp : postOfFile m fs fn with
    | error e => rw [hp] at hfn; cases hfn
    | ok p =>
      obtain ⟨ps, hps⟩ := ih (fun g hg => h g (List.mem_cons_of_mem fn hg))
      exact ⟨p :: ps, by simp only [collectPosts, hp, hps]⟩

lemma getAllPosts_ok_sorted_filterMap (m : MatterFn) (fs : FileSys)
    (l : List Post) (h : getAllPosts m fs = .ok l) :
    l = sortByDateDesc (((fs.dirListing.getD []).filter endsWithMd).filterMap
      (validPostOfFile m fs)) := by
  unfold getAllPosts at h
  dsimp only at h
  cases hc : collectPosts m fs ((fs.dirListing.getD []).filter endsWithMd) with
  | error e => rw [hc] at h; cases h
  | ok rs =>
    rw [hc] at h
    simp only [Except.map] at h
    cases h
    rw [collectPosts_ok_filterMap m fs _ rs hc]

lemma getAllPosts_ok_perm (m : MatterFn) (fs : FileSys)
    (l : List Post) (h : getAllPosts m fs = .ok l) :
    l.Perm (((fs.dirListing.getD []).filter endsWithMd).filterMap
      (validPostOfFile m fs)) := by
  rw [getAllPosts_ok_sorted_filterMap m fs l h]
  exact sortByDateDesc_perm _

lemma getAllPosts_dirErr (m : MatterFn) (fs : FileSys)
    (h : fs.dirListing = none) : getAllPosts m fs = .ok [] := by
  unfold getAllPosts
  rw [h]
  rfl

/-! ### Characterization of the post contributed by one file -/

lemma postOfFile_readErr (m : MatterFn) (fs : FileSys) (fn : String)
    (hr : fs.readFile fn = none) : postOfFile m fs fn = .ok none := by
  unfold postOfFile
  rw [hr]
  rfl

lemma strTruthy_data {c : String} (h : strTruthy c = true) : c.data.isEmpty = false := by
  unfold strTruthy at h
  cases hc : c.data.isEmpty
  · rfl
  · rw [hc] at h; cases h

lemma postOfFile_emptyContents (m : MatterFn) (fs : FileSys) (fn : String) (c : String)
    (hr : fs.readFile fn = some c) (hc : strTruthy c = false) :
    postOfFile m fs fn = .ok none := by
  unfold postOfFile
  rw [hr]
  unfold strTruthy at hc
  simp only [Option.getD_some]
  have : c.data.isEmpty = true := by
    cases h : c.data.isEmpty
    · rw [h] at hc; cases hc
    · rfl
  simp [this]

lemma postOfFile_parsed (m : MatterFn) (fs : FileSys) (fn : String) (c : String)
    (data : FrontMatter) (content : String)
    (hr : fs.readFile fn = some c) (hc : strTruthy c = true)
    (hm : m c = some (data, content)) :
    postOfFile m fs fn =
      if truthy data.title && truthy data.date && truthy data.excerpt then
        .ok (some (mkListPost fn data content))
      else .ok none := by
  unfold postOfFile mkListPost
  rw [hr]
  simp only [Option.getD_some, strTruthy_data hc, Bool.false_eq_true, if_false, hm]

lemma postOfFile_ok_some_elim (m : MatterFn) (fs : FileSys) (fn : String) (p : Post)
    (h : postOfFile m fs fn = .ok (some p)) :
    ∃ c data content,
      fs.readFile fn = some c ∧ strTruthy c = true ∧
      m c = some (data, content) ∧
      truthy data.title = true ∧ truthy data.date = true ∧ truthy data.excerpt = true ∧
      p = mkListPost fn data content := by
  cases hr : fs.readFile fn with
  | none => rw [postOfFile_readErr m fs fn hr] at h; cases h
  | some c =>
    cases hc : strTruthy c with
    | false => rw [postOfFile_emptyContents m fs fn c hr hc] at h; cases h
    | true =>
      cases hm : m c with
      | none =>
        unfold postOfFile at h
        rw [hr] at h
        simp only [Option.getD_some, strTruthy_data hc, Bool.false_eq_true, if_false, hm] at h
        cases h
      | some dc =>
        obtain ⟨data, content⟩ := dc
        rw [postOfFile_parsed m fs fn c data content hr hc hm] at h
        by_cases ht : (truthy data.title && truthy data.date && truthy data.excerpt) = true
        · rw [if_pos ht] at h
          obtain ⟨ht1, ht2⟩ := Bool.and_eq_true_iff.mp ht
          obtain ⟨ht1a, ht1b⟩ := Bool.and_eq_true_iff.mp ht1
          cases h
          exact ⟨c, data, content, rfl, hc, hm, ht1a, ht1b, ht2, rfl⟩
        · rw [if_neg ht] at h
          cases h

lemma validPostOfFile_some_elim (m : MatterFn) (fs : FileSys) (fn : String) (p : Post)
    (h : validPostOfFile m fs fn = some p) :
    ∃ c data content,
      fs.readFile fn = some c ∧ strTruthy c = true ∧
      m c = some (data, content) ∧
      truthy data.title = true ∧ truthy data.date = true ∧ truthy data.excerpt = true ∧
      p = mkListPost fn data content := by
  unfold validPostOfFile at h
  cases hp : postOfFile m fs fn with
  | error e => rw [hp] at h; cases h
  | ok o =>
    rw [hp] at h
    cases h
    exact postOfFile_ok_some_elim m fs fn p hp

lemma truthy_isSome {o : Option String} (h : truthy o = true) : o.isSome = true := by
  cases o with
  | none => cases h
  | some s => rfl

lemma mem_getAllPosts_date_isSome (m : MatterFn) (fs : FileSys)
    (l : List Post) (h : getAllPosts m fs = .ok l) :
    ∀ p ∈ l, p.date.isSome = true := by
  intro p hp
  have hperm := getAllPosts_ok_perm m fs l h
  have := hperm.mem_iff.mp hp
  obtain ⟨fn, _, hfn⟩ := List.mem_filterMap.mp this
  obtain ⟨c, data, content, _, _, _, _, ht2, _, hpe⟩ :=
    validPostOfFile_some_elim m fs fn p hfn
  rw [hpe]
  exact truthy_isSome ht2

/-! ### Pagination arithmetic -/

lemma jsSliceIndex_ofNat (len a : Nat) : jsSliceIndex len (a : Int) = min a len := by
  unfold jsSliceIndex
  have : ¬ ((a : Int) < 0) := by omega
  simp [this]

lemma jsSlice_ofNat {α : Type} (l : List α) (a b : Nat) :
    jsSlice l (a : Int) (b : Int) = (l.take b).drop a := by
  unfold jsSlice
  rw [jsSliceIndex_ofNat, jsSliceIndex_ofNat]
  have htake : l.take (min b l.length) = l.take b := by
    rcases le_total b l.length with hb | hb
    · rw [min_eq_left hb]
    · rw [min_eq_right hb, List.take_of_length_le le_rfl, List.take_of_length_le hb]
  rw [htake]
  rcases le_total a l.length with ha | ha
  · rw [min_eq_left ha]
  · rw [min_eq_right ha]
    have h1 : (l.take b).drop l.length = [] := by
      apply List.drop_eq_nil_of_le
      simp only [List.length_take]
      omega
    have h2 : (l.take b).drop a = [] := by
      apply List.drop_eq_nil_of_le
      simp only [List.length_take]
      omega
    rw [h1, h2]

lemma join_chunks {α : Type} (l : List α) :
    ∀ n : Nat,
      ((List.range n).map (fun i => (l.drop (i * 10)).take 10)).flatten = l.take (n * 10) := by
  intro n
  induction n with
  | zero => simp
  | succ k ih =>
    rw [List.range_succ, List.map_append, List.flatten_append, ih]
    simp only [List.map_cons, List.map_nil, List.flatten_cons, List.flatten_nil,
      List.append_nil]
    have : (k + 1) * 10 = k * 10 + 10 := by ring
    rw [this, List.take_add]

lemma getPaginatedPosts_ok (m : MatterFn) (fs : FileSys) (l : List Post) (page : Int)
    (h : getAllPosts m fs = .ok l) :
    getPaginatedPosts m fs page = .ok
      { posts := jsSlice l ((page - 1) * (POSTS_PER_PAGE : Int))
                   ((page - 1) * (POSTS_PER_PAGE : Int) + (POSTS_PER_PAGE : Int))
        totalPages := (l.length + (POSTS_PER_PAGE - 1)) / POSTS_PER_PAGE
        currentPage := page } := by
  unfold getPaginatedPosts
  rw [h]
  rfl

lemma pagePostsOf_nat (m : MatterFn) (fs : FileSys) (l : List Post)
    (h : getAllPosts m fs = .ok l) (p : Nat) (hp : 1 ≤ p) :
    pagePostsOf m fs (p : Int) =
      (l.drop ((p - 1) * POSTS_PER_PAGE)).take POSTS_PER_PAGE := by
  unfold pagePostsOf
  rw [getPaginatedPosts_ok m fs l (p : Int) h]
  have e1 : ((p : Int) - 1) * (POSTS_PER_PAGE : Int) = (((p - 1) * POSTS_PER_PAGE : Nat) : Int) := by
    have : ((p : Int) - 1) = (((p - 1 : Nat)) : Int) := by omega
    rw [this]
    push_cast
    ring
  have e2 : ((p : Int) - 1) * (POSTS_PER_PAGE : Int) + (POSTS_PER_PAGE : Int) =
      (((p - 1) * POSTS_PER_PAGE + POSTS_PER_PAGE : Nat) : Int) := by
    rw [e1]
    push_cast
    ring
  rw [e2, e1, jsSlice_ofNat, List.drop_take, Nat.add_sub_cancel_left]

lemma pagePostsOf_length (m : MatterFn) (fs : FileSys) (l : List Post)
    (h : getAllPosts m fs = .ok l) (p : Nat) (hp : 1 ≤ p) :
    (pagePostsOf m fs (p : Int)).length =
      min POSTS_PER_PAGE (l.length - (p - 1) * POSTS_PER_PAGE) := by
  rw [pagePostsOf_nat m fs l h p hp]
  simp [List.length_take, List.length_drop]

lemma pagePosts_join (m : MatterFn) (fs : FileSys) (l : List Post)
    (h : getAllPosts m fs = .ok l) :
    ((List.range ((l.length + (POSTS_PER_PAGE - 1)) / POSTS_PER_PAGE)).map
      (fun i : Nat => pagePostsOf m fs ((i : Int) + 1))).flatten = l := by
  have hmap : ∀ i ∈ List.range ((l.length + (POSTS_PER_PAGE - 1)) / POSTS_PER_PAGE),
      pagePostsOf m fs ((i : Int) + 1) = (l.drop (i * 10)).take 10 := by
    intro i _
    have : ((i : Int) + 1) = (((i + 1 : Nat)) : Int) := by push_cast; ring
    rw [this, pagePostsOf_nat m fs l h (i + 1) (by omega)]
    simp [POSTS_PER_PAGE]
  rw [List.map_congr_left hmap, join_chunks]
  apply List.take_of_length_le
  simp only [POSTS_PER_PAGE]
  omega

lemma jsSlice_stop_zero {α : Type} (l : List α) (s : Int) : jsSlice l s 0 = [] := by
  unfold jsSlice jsSliceIndex
  have : ¬ ((0 : Int) < 0) := by decide
  simp [this]

lemma getPlaceholderImage_eq (slug : String) :
    getPlaceholderImage slug = placeholderImages.getD (charSum slug % 5) "" := rfl

lemma placeholder_getD_mem (k : Nat) (hk : k < 5) :
    placeholderImages.getD k "" ∈ placeholderImages := by
  interval_cases k <;> decide

lemma placeholder_getD_get (k : Nat) (hk : k < placeholderImages.length) :
    placeholderImages.getD k "" = placeholderImages.get ⟨k, hk⟩ := by
  have hk5 : k < 5 := hk
  interval_cases k <;> rfl

lemma validPostOfFile_readFail (m : MatterFn) (fs : FileSys) (fn : String)
    (hr : fs.readFile fn = none) : validPostOfFile m fs fn = none := by
  unfold validPostOfFile
  rw [postOfFile_readErr m fs fn hr]

lemma validPostOfFile_missingField (m : MatterFn) (fs : FileSys) (fn : String)
    (c : String) (data : FrontMatter) (content : String)
    (hr : fs.readFile fn = some c) (hc : strTruthy c = true)
    (hm : m c = some (data, content))
    (hf : truthy data.title = false ∨ truthy data.date = false ∨
      truthy data.excerpt = false) :
    validPostOfFile m fs fn = none := by
  unfold validPostOfFile
  rw [postOfFile_parsed m fs fn c data content hr hc hm]
  rcases hf with hf | hf | hf <;> simp [hf]

lemma validPostOfFile_valid (m : MatterFn) (fs : FileSys) (fn : String)
    (c : String) (data : FrontMatter) (content : String)
    (hr : fs.readFile fn = some c) (hc : strTruthy c = true)
    (hm : m c = some (data, content))
    (ht1 : truthy data.title = true) (ht2 : truthy data.date = true)
    (ht3 : truthy data.excerpt = true) :
    validPostOfFile m fs fn = some (mkListPost fn data content) := by
  unfold validPostOfFile
  rw [postOfFile_parsed m fs fn c data content hr hc hm]
  simp [ht1, ht2, ht3]

/-! ### The spec-modelled renderer never emits raw heading syntax -/

lemma splitLines_no_newline : ∀ cs : List Char, ∀ l ∈ splitLines cs, '\n' ∉ l := by
  intro cs
  induction cs with
  | nil =>
    intro l hl
    unfold splitLines at hl
    rw [List.mem_singleton] at hl
    subst hl
    simp
  | cons c rest ih =>
    intro l hl
    unfold splitLines at hl
    by_cases hc : c = '\n'
    · rw [if_pos hc] at hl
      rcases List.mem_cons.mp hl with hl | hl
      · subst hl; simp
      · exact ih l hl
    · rw [if_neg hc] at hl
      cases hsp : splitLines rest with
      | nil =>
        rw [hsp] at hl
        rw [List.mem_singleton] at hl
        subst hl
        exact fun hmem => hc (List.mem_singleton.mp hmem).symm
      | cons l0 ls =>
        rw [hsp] at hl
        rcases List.mem_cons.mp hl with hl | hl
        · subst hl
          intro hmem
          rcases List.mem_cons.mp hmem with he | hmem0
          · exact hc he.symm
          · exact ih l0 (by rw [hsp]; exact List.mem_cons_self l0 ls) hmem0
        · exact ih l (by rw [hsp]; exact List.mem_cons_of_mem l0 hl)

lemma renderLine_shape (line : List Char) (h : '\n' ∉ line) :
    ∃ t, renderLine line = '<' :: t ∧ '\n' ∉ t := by
  unfold renderLine
  split
  · rename_i rest
    refine ⟨'h' :: '1' :: '>' :: (rest ++ ['<', '/', 'h', '1', '>']), rfl, ?_⟩
    intro hmem
    simp only [List.mem_cons, List.mem_append] at hmem h
    rcases hmem with he | he | he | hmem
    · exact absurd he (by decide)
    · exact absurd he (by decide)
    · exact absurd he (by decide)
    · rcases hmem with hmem | hmem
      · exact h (Or.inr (Or.inr hmem))
      · simp at hmem
  · refine ⟨'p' :: '>' :: (line ++ ['<', '/', 'p', '>']), rfl, ?_⟩
    intro hmem
    simp only [List.mem_cons, List.mem_append] at hmem
    rcases hmem with he | he | hmem
    · exact absurd he (by decide)
    · exact absurd he (by decide)
    · rcases hmem with hmem | hmem
      · exact h hmem
      · simp at hmem

lemma hasRawHeadingAux_append (l rest : List Char) (h : '\n' ∉ l) :
    hasRawHeadingAux false (l ++ rest) = hasRawHeadingAux false rest := by
  induction l with
  | nil => rfl
  | cons c cs ih =>
    have hc : c ≠ '\n' := fun he => h (he ▸ List.mem_cons_self c cs)
    simp only [List.cons_append, hasRawHeadingAux, Bool.false_and, Bool.false_eq_true,
      if_false, decide_eq_false hc]
    exact ih (fun hmem => h (List.mem_cons_of_mem c hmem))

lemma hasRawHeadingAux_join :
    ∀ (ls : List (List Char)) (b : Bool),
      (∀ l ∈ ls, ∃ t, l = '<' :: t ∧ '\n' ∉ t) →
      hasRawHeadingAux b (joinLines ls) = false := by
  intro ls
  induction ls with
  | nil => intro b _; rfl
  | cons l rest ih =>
    intro b h
    obtain ⟨t, rfl, ht⟩ := h _ (List.mem_cons_self l rest)
    cases rest with
    | nil =>
      show hasRawHeadingAux b ('<' :: t) = false
      simp only [hasRawHeadingAux]
      have hlt : (decide ('<' = '#')) = false := by decide
      have hnl : (decide ('<' = '\n')) = false := by decide
      rw [hlt]
      simp only [Bool.and_false, Bool.false_and, Bool.false_eq_true, if_false, hnl]
      have := hasRawHeadingAux_append t [] ht
      rw [List.append_nil] at this
      exact this
    | cons l2 rest2 =>
      show hasRawHeadingAux b (('<' :: t) ++ '\n' :: joinLines (l2 :: rest2)) = false
      simp only [List.cons_append, hasRawHeadingAux]
      have hlt : (decide ('<' = '#')) = false := by decide
      have hnl : (decide ('<' = '\n')) = false := by decide
      rw [hlt]
      simp only [Bool.and_false, Bool.false_and, Bool.false_eq_true, if_false, hnl]
      simp only [List.append_eq]
      rw [hasRawHeadingAux_append t _ ht]
      simp only [hasRawHeadingAux, Bool.false_and, Bool.false_eq_true, if_false,
        decide_eq_true_eq]
      exact ih _ (fun l0 hl0 => h l0 (List.mem_cons_of_mem _ hl0))

lemma hasRawHeading_renderHtml (body : String) :
    hasRawHeading (renderHtml body) = false := by
  show hasRawHeadingAux true (joinLines ((splitLines body.data).map renderLine)) = false
  apply hasRawHeadingAux_join
  intro l hl
  obtain ⟨line, hline, rfl⟩ := List.mem_map.mp hl
  exact renderLine_shape line (splitLines_no_newline body.data line hline)

/-! ## The claims -/

/-- C1: for every content set whose listing succeeds, pagination partitions the
sorted list exactly: there is a single page count `tp`, reported as
`totalPages` by every call and equal to `⌈total / 10⌉` (characterized as the
least number of pages covering the list); every page `p` with `1 ≤ p ≤ tp` has
at most 10 posts, exactly 10 unless it is the last; and concatenating the
pages `1 .. tp` in order reproduces the list of `getAllPosts` exactly — same order,
no duplicates, no omissions. -/
theorem pagination_partitions_sorted_list (m : MatterFn) (fs : FileSys) (l : List Post)
    (h : getAllPosts m fs = .ok l) :
    ∃ tp : Nat,
      (∀ (page : Int) (pg : PaginatedPosts),
          getPaginatedPosts m fs page = .ok pg → pg.totalPages = tp) ∧
      l.length ≤ tp * POSTS_PER_PAGE ∧
      (∀ k : Nat, l.length ≤ k * POSTS_PER_PAGE → tp ≤ k) ∧
      (∀ p : Nat, 1 ≤ p → p ≤ tp →
          (pagePostsOf m fs (p : Int)).length ≤ POSTS_PER_PAGE ∧
          (p < tp → (pagePostsOf m fs (p : Int)).length = POSTS_PER_PAGE)) ∧
      ((List.range tp).map (fun i : Nat => pagePostsOf m fs ((i : Int) + 1))).flatten = l := by
  refine ⟨(l.length + (POSTS_PER_PAGE - 1)) / POSTS_PER_PAGE, ?_, ?_, ?_, ?_, ?_⟩
  · intro page pg hpg
    rw [getPaginatedPosts_ok m fs l page h] at hpg
    cases hpg
    rfl
  · simp only [POSTS_PER_PAGE]
    omega
  · intro k hk
    simp only [POSTS_PER_PAGE] at hk ⊢
    omega
  · intro p hp1 hp2
    rw [pagePostsOf_length m fs l h p hp1]
    simp only [POSTS_PER_PAGE] at hp2 ⊢
    constructor
    · omega
    · intro hlt
      omega
  · exact pagePosts_join m fs l h

/-- Witness for C1 at the three-file fixture: the single page covers the
listing exactly. -/
theorem pagination_partitions_sorted_list_witness :
    getAllPosts matterW fsW = .ok postsW ∧
    (pagePostsOf matterW fsW ((1 : Nat) : Int)).length ≤ POSTS_PER_PAGE := by
  refine ⟨rfl, ?_⟩
  obtain ⟨tp, _, hcover, _, hpages, _⟩ :=
    pagination_partitions_sorted_list matterW fsW postsW rfl
  have hlen : postsW.length = 2 := rfl
  have h1 : 1 ≤ tp := by
    rw [hlen] at hcover
    simp only [POSTS_PER_PAGE] at hcover
    omega
  exact (hpages 1 le_rfl h1).1

/-- C4: out-of-range pages do not throw: page 0 and page `totalPages + 1`
return a structure with an empty posts list, the same `totalPages` as every
in-range call, and `currentPage` echoing the requested page unchanged. -/
theorem out_of_range_pages_return_empty (m : MatterFn) (fs : FileSys) (l : List Post)
    (h : getAllPosts m fs = .ok l) :
    ∃ tp : Nat,
      (∀ (page : Int) (pg : PaginatedPosts),
          getPaginatedPosts m fs page = .ok pg → pg.totalPages = tp) ∧
      getPaginatedPosts m fs 0 = .ok { posts := [], totalPages := tp, currentPage := 0 } ∧
      getPaginatedPosts m fs ((tp : Int) + 1) =
        .ok { posts := [], totalPages := tp, currentPage := (tp : Int) + 1 } := by
  refine ⟨(l.length + (POSTS_PER_PAGE - 1)) / POSTS_PER_PAGE, ?_, ?_, ?_⟩
  · intro page pg hpg
    rw [getPaginatedPosts_ok m fs l page h] at hpg
    cases hpg
    rfl
  · rw [getPaginatedPosts_ok m fs l 0 h]
    have e0 : ((0 : Int) - 1) * (POSTS_PER_PAGE : Int) + (POSTS_PER_PAGE : Int) = 0 := by
      simp only [POSTS_PER_PAGE]
      decide
    rw [e0, jsSlice_stop_zero]
  · rw [getPaginatedPosts_ok m fs l _ h]
    have e1 : ((((l.length + (POSTS_PER_PAGE - 1)) / POSTS_PER_PAGE : Nat) : Int) + 1 - 1) *
        (POSTS_PER_PAGE : Int) =
        (((((l.length + (POSTS_PER_PAGE - 1)) / POSTS_PER_PAGE) * POSTS_PER_PAGE : Nat)) : Int) := by
      push_cast
      ring
    have e2 : ((((l.length + (POSTS_PER_PAGE - 1)) / POSTS_PER_PAGE : Nat) : Int) + 1 - 1) *
        (POSTS_PER_PAGE : Int) + (POSTS_PER_PAGE : Int) =
        (((((l.length + (POSTS_PER_PAGE - 1)) / POSTS_PER_PAGE) * POSTS_PER_PAGE
          + POSTS_PER_PAGE : Nat)) : Int) := by
      push_cast
      ring
    rw [e2, e1, jsSlice_ofNat]
    have hnil : (l.take ((l.length + (POSTS_PER_PAGE - 1)) / POSTS_PER_PAGE * POSTS_PER_PAGE
        + POSTS_PER_PAGE)).drop ((l.length + (POSTS_PER_PAGE - 1)) / POSTS_PER_PAGE
        * POSTS_PER_PAGE) = [] := by
      apply List.drop_eq_nil_of_le
      simp only [List.length_take, POSTS_PER_PAGE]
      have : l.length ≤ ((l.length + (10 - 1)) / 10) * 10 := by omega
      omega
    rw [hnil]

/-- Witness for C4 at the three-file fixture, where `totalPages = 1`: pages 0
and 2 return the empty slice with the page number echoed. -/
theorem out_of_range_pages_return_empty_witness :
    getPaginatedPosts matterW fsW 0 =
      .ok { posts := [], totalPages := 1, currentPage := 0 } ∧
    getPaginatedPosts matterW fsW 2 =
      .ok { posts := [], totalPages := 1, currentPage := 2 } := by
  obtain ⟨tp, htp, h0, hnext⟩ := out_of_range_pages_return_empty matterW fsW postsW rfl
  have htp1 : tp = 1 := by
    have h1 := htp 1 { posts := postsW, totalPages := 1, currentPage := 1 } rfl
    exact h1.symm
  subst htp1
  refine ⟨h0, ?_⟩
  have e : (((1 : Nat) : Int) + 1) = 2 := by norm_num
  rw [e] at hnext
  exact hnext

/-- C10: a negative page is neither rejected nor clamped: with at least 11
posts, page `-1` yields the end-relative slice `[length-20, length-10)` — a
non-empty run of posts taken from the last 20 entries of the sorted list, not
an empty page — with `currentPage` echoing `-1`; and the page parsing of the
HTTP layer (`Number` of the query, with `|| 1`) passes a negative numeric page value through unchanged. -/
theorem negative_page_slices_from_end (m : MatterFn) (fs : FileSys) (l : List Post)
    (h : getAllPosts m fs = .ok l) (hlen : 11 ≤ l.length) :
    (∃ pg, getPaginatedPosts m fs (-1) = .ok pg ∧
        pg.posts ≠ [] ∧
        pg.currentPage = -1 ∧
        pg.posts = (l.take (l.length - 10)).drop (l.length - 20) ∧
        pg.posts.Sublist (l.drop (l.length - 20))) ∧
    pageFromQuery (some (-1)) = -1 := by
  have e1 : (((-1 : Int)) - 1) * (POSTS_PER_PAGE : Int) = -20 := by
    simp only [POSTS_PER_PAGE]
    decide
  have e2 : (((-1 : Int)) - 1) * (POSTS_PER_PAGE : Int) + (POSTS_PER_PAGE : Int) = -10 := by
    simp only [POSTS_PER_PAGE]
    decide
  have hs : jsSlice l ((((-1 : Int)) - 1) * (POSTS_PER_PAGE : Int))
      ((((-1 : Int)) - 1) * (POSTS_PER_PAGE : Int) + (POSTS_PER_PAGE : Int)) =
      (l.take (l.length - 10)).drop (l.length - 20) := by
    rw [e2, e1]
    unfold jsSlice jsSliceIndex
    have h20 : ((-20 : Int) < 0) := by decide
    have h10 : ((-10 : Int) < 0) := by decide
    rw [if_pos h20, if_pos h10]
    have t1 : ((l.length : Int) + (-20)).toNat = l.length - 20 := by omega
    have t2 : ((l.length : Int) + (-10)).toNat = l.length - 10 := by omega
    rw [t1, t2]
  refine ⟨⟨_, getPaginatedPosts_ok m fs l (-1) h, ?_, rfl, ?_, ?_⟩, rfl⟩
  · show jsSlice l _ _ ≠ []
    rw [hs]
    intro hne
    have : ((l.take (l.length - 10)).drop (l.length - 20)).length = 0 := by
      rw [hne]
      rfl
    simp only [List.length_drop, List.length_take] at this
    omega
  · exact hs
  · show (jsSlice l _ _).Sublist _
    rw [hs, List.drop_take]
    exact List.take_sublist _ _

/-- Witness for C10 at the twelve-post fixture: page `-1` yields the first
two posts (the slice `[length-20, length-10)` clamped), not an empty page. -/
theorem negative_page_slices_from_end_witness :
    getAllPosts matter12 fs12 = .ok posts12 ∧
    11 ≤ posts12.length ∧
    pagePostsOf matter12 fs12 (-1) ≠ [] ∧
    pagePostsOf matter12 fs12 (-1) =
      (posts12.take (posts12.length - 10)).drop (posts12.length - 20) ∧
    pageFromQuery (some (-1)) = -1 := by
  obtain ⟨⟨pg, hpg, hne, _, heq, _⟩, hq⟩ :=
    negative_page_slices_from_end matter12 fs12 posts12 rfl (by decide)
  have hposts : pagePostsOf matter12 fs12 (-1) = pg.posts := by
    unfold pagePostsOf
    rw [hpg]
  exact ⟨rfl, by decide, by rw [hposts]; exact hne, by rw [hposts]; exact heq, hq⟩

/-- C8: the image fallback resolver is a pure, deterministic, I/O-free
function of the slug: it returns the palette entry at index
`charSum slug % 5`, the palette has exactly five fixed stock-image URLs, the
result is always one of them, and any two slugs with the same checksum residue
receive the identical string. -/
theorem placeholder_image_pure_deterministic (slug : String) :
    getPlaceholderImage slug ∈ placeholderImages ∧
    placeholderImages.length = 5 ∧
    getPlaceholderImage slug = placeholderImages.getD (charSum slug % 5) "" ∧
    (∀ slug2 : String, charSum slug2 % 5 = charSum slug % 5 →
        getPlaceholderImage slug2 = getPlaceholderImage slug) := by
  refine ⟨?_, rfl, getPlaceholderImage_eq slug, ?_⟩
  · rw [getPlaceholderImage_eq]
    exact placeholder_getD_mem _ (Nat.mod_lt _ (by decide))
  · intro slug2 h2
    rw [getPlaceholderImage_eq, getPlaceholderImage_eq, h2]

/-- Witness for C8 at a concrete slug: the result is in the palette, and the
same checksum residue yields the identical string. -/
theorem placeholder_image_pure_deterministic_witness :
    getPlaceholderImage "getting-started" ∈ placeholderImages ∧
    getPlaceholderImage "getting-started" = getPlaceholderImage "getting-started" :=
  ⟨(placeholder_image_pure_deterministic "getting-started").1,
   (placeholder_image_pure_deterministic "getting-started").2.2.2 "getting-started" rfl⟩

/-- C2: the list returned by `getAllPosts` is sorted by date descending under
lexical (JavaScript) string comparison: every post carries a date string, and
for any post `a` before a post `b` in the result, `a.date >= b.date` as
strings (for strings, JS `>=` is the negation of `<`). -/
theorem listing_sorted_by_date_desc (m : MatterFn) (fs : FileSys) (l : List Post)
    (h : getAllPosts m fs = .ok l) :
    (∀ p ∈ l, p.date.isSome = true) ∧
    l.Pairwise (fun a b => jsStrGe (a.date.getD "") (b.date.getD "") = true) := by
  have hmem := mem_getAllPosts_date_isSome m fs l h
  refine ⟨hmem, ?_⟩
  have hsorted : l.Pairwise (fun a b => sortLe a b = true) := by
    rw [getAllPosts_ok_sorted_filterMap m fs l h]
    apply pairwise_sortByDateDesc
    intro p hp
    obtain ⟨fn, _, hfn⟩ := List.mem_filterMap.mp hp
    obtain ⟨c, data, content, _, _, _, _, ht2, _, hpe⟩ :=
      validPostOfFile_some_elim m fs fn p hfn
    rw [hpe]
    exact truthy_isSome ht2
  rw [List.Pairwise.and_mem] at hsorted
  rw [List.Pairwise.and_mem]
  refine hsorted.imp ?_
  rintro a b ⟨ha, hb, hle⟩
  refine ⟨ha, hb, ?_⟩
  obtain ⟨da, hda⟩ := Option.isSome_iff_exists.mp (hmem a ha)
  obtain ⟨db, hdb⟩ := Option.isSome_iff_exists.mp (hmem b hb)
  rw [sortLe_eq, Bool.not_eq_eq_eq_not, Bool.not_true] at hle
  unfold postDateLt at hle
  rw [hda, hdb] at hle
  have hle2 : jsStrLt da db = false := hle
  unfold jsStrGe
  rw [hda, hdb, Option.getD_some, Option.getD_some, hle2]
  rfl

/-- Witness for C2 at the three-file fixture: the two surviving posts come out
date-descending. -/
theorem listing_sorted_by_date_desc_witness :
    getAllPosts matterW fsW = .ok postsW ∧
    postC.date.isSome = true ∧
    jsStrGe (postC.date.getD "") (postA.date.getD "") = true := by
  have t := listing_sorted_by_date_desc matterW fsW postsW rfl
  refine ⟨rfl, t.1 postC (List.mem_cons_self postC [postA]), ?_⟩
  have hp : postsW.Pairwise
      (fun a b => jsStrGe (a.date.getD "") (b.date.getD "") = true) := t.2
  exact (List.pairwise_cons.mp hp).1 postA (List.mem_cons_self postA [])

/-- C3: per-file failure containment in the list path: a directory-read
failure yields the empty list without an exception; a listing whose per-file
callbacks all complete returns normally; a file whose read fails, and a
parsed file whose front matter lacks (or has a falsy) `title`, `date`, or
`excerpt`, contribute no post; and the result is, up to the sort, exactly the
posts of the valid files — so each skipped file is absent while the post of
every valid file still appears. -/
theorem listing_contains_per_file_failures (m : MatterFn) (fs : FileSys) :
    (fs.dirListing = none → getAllPosts m fs = .ok []) ∧
    (∀ names, fs.dirListing = some names →
      (∀ fn ∈ names.filter endsWithMd, (postOfFile m fs fn).isOk = true) →
      ∃ l, getAllPosts m fs = .ok l) ∧
    (∀ fn, fs.readFile fn = none → validPostOfFile m fs fn = none) ∧
    (∀ fn c data content, fs.readFile fn = some c → strTruthy c = true →
        m c = some (data, content) →
        (truthy data.title = false ∨ truthy data.date = false ∨
          truthy data.excerpt = false) →
        validPostOfFile m fs fn = none) ∧
    (∀ names l, fs.dirListing = some names → getAllPosts m fs = .ok l →
      l.Perm ((names.filter endsWithMd).filterMap (validPostOfFile m fs)) ∧
      (∀ fn ∈ names, endsWithMd fn = true →
        ∀ p, validPostOfFile m fs fn = some p → p ∈ l)) := by
  refine ⟨getAllPosts_dirErr m fs, ?_, ?_, ?_, ?_⟩
  · intro names hnames hok
    obtain ⟨rs, hrs⟩ := collectPosts_isOk m fs (names.filter endsWithMd) hok
    refine ⟨sortByDateDesc (rs.filterMap id), ?_⟩
    unfold getAllPosts
    rw [hnames]
    dsimp only
    rw [Option.getD_some, hrs]
    rfl
  · exact validPostOfFile_readFail m fs
  · exact fun fn c data content => validPostOfFile_missingField m fs fn c data content
  · intro names l hnames hl
    have hperm := getAllPosts_ok_perm m fs l hl
    rw [hnames] at hperm
    rw [show (some names).getD [] = names from rfl] at hperm
    refine ⟨hperm, ?_⟩
    intro fn hfn hmd p hp
    apply hperm.mem_iff.mpr
    exact List.mem_filterMap.mpr ⟨fn, List.mem_filter.mpr ⟨hfn, hmd⟩, hp⟩

/-- Witness for C3 at the three-file fixture: the unreadable file and the
file missing `excerpt` contribute nothing, the listing still succeeds, and the
post of the valid file appears in it. -/
theorem listing_contains_per_file_failures_witness :
    validPostOfFile matterW fsW "broken.md" = none ∧
    validPostOfFile matterW fsW "b.md" = none ∧
    (getAllPosts matterW fsW).isOk = true ∧
    postA ∈ postsW := by
  refine ⟨?_, ?_, ?_, ?_⟩
  · exact (listing_contains_per_file_failures matterW fsW).2.2.1 "broken.md" rfl
  · exact (listing_contains_per_file_failures matterW fsW).2.2.2.1 "b.md" "B" fmB "body b"
      rfl rfl rfl (Or.inr (Or.inr rfl))
  · obtain ⟨l, hl⟩ := (listing_contains_per_file_failures matterW fsW).2.1
      ["a.md", "b.md", "c.md", "broken.md", "notes.txt"] rfl (by decide)
    rw [hl]
    rfl
  · exact ((listing_contains_per_file_failures matterW fsW).2.2.2.2
      ["a.md", "b.md", "c.md", "broken.md", "notes.txt"] postsW rfl rfl).2
      "a.md" (by decide) rfl postA rfl

/-- C5: every failure on the single-post path is reported as an absent result,
never an exception: a failing read of `<slug>.md` (in particular, a
nonexistent slug) yields `null`, and a read that succeeds but whose
front-matter parse throws also yields `null`. -/
theorem single_post_failures_yield_absent (m : MatterFn) (render : String → String)
    (fs : FileSys) (slug : String) :
    (fs.readFile (slug ++ ".md") = none → getPostBySlug m render fs slug = none) ∧
    (∀ c, fs.readFile (slug ++ ".md") = some c → m c = none →
        getPostBySlug m render fs slug = none) := by
  constructor
  · intro hr
    simp only [getPostBySlug, hr]
  · intro c hr hm
    simp only [getPostBySlug, hr, hm]

/-- Witness for C5: a nonexistent slug and a file whose parse fails. -/
theorem single_post_failures_yield_absent_witness :
    (fsW.readFile ("nope" ++ ".md") = none ∧
      getPostBySlug matterW renderHtml fsW "nope" = none) ∧
    (fsBad.readFile ("bad" ++ ".md") = some "?" ∧ matterW "?" = none ∧
      getPostBySlug matterW renderHtml fsBad "bad" = none) :=
  ⟨⟨rfl, (single_post_failures_yield_absent matterW renderHtml fsW "nope").1 rfl⟩,
   ⟨rfl, rfl,
    (single_post_failures_yield_absent matterW renderHtml fsBad "bad").2 "?" rfl rfl⟩⟩

/-- C6: required-field validation is not enforced on the single-post path: a
readable, parseable file is always returned as a `Post` carrying the
front-matter fields verbatim — `undefined` (`none`) when missing — while the
list path rejects the same file when a required field is missing or falsy. -/
theorem single_post_skips_validation (m : MatterFn) (render : String → String)
    (fs : FileSys) (slug c : String) (data : FrontMatter) (content : String)
    (hr : fs.readFile (slug ++ ".md") = some c)
    (hm : m c = some (data, content)) :
    getPostBySlug m render fs slug = some
      { slug := slug, title := data.title, date := data.date, excerpt := data.excerpt
        content := render content
        imageUrl := jsOrDefault data.imageUrl (getPlaceholderImage slug) } ∧
    ((truthy data.title = false ∨ truthy data.date = false ∨
        truthy data.excerpt = false) →
      strTruthy c = true →
      validPostOfFile m fs (slug ++ ".md") = none) := by
  constructor
  · simp only [getPostBySlug, hr, hm]
  · intro hf hc
    exact validPostOfFile_missingField m fs (slug ++ ".md") c data content hr hc hm hf

/-- Witness for C6 at the fixture file `b.md`, which lacks `excerpt`: the
single-post path returns it with `excerpt := none`, the list path drops it. -/
theorem single_post_skips_validation_witness :
    getPostBySlug matterW renderHtml fsW "b" = some
      { slug := "b", title := some "T2", date := some "2024-03-01", excerpt := none
        content := renderHtml "body b"
        imageUrl := jsOrDefault fmB.imageUrl (getPlaceholderImage "b") } ∧
    validPostOfFile matterW fsW ("b" ++ ".md") = none := by
  have t := single_post_skips_validation matterW renderHtml fsW "b" "B" fmB "body b" rfl rfl
  exact ⟨t.1, t.2 (Or.inr (Or.inr rfl)) rfl⟩

/-- C7: the two retrieval paths produce different representations of
`content`: for a valid content file, the post in the result of `getAllPosts`
carries the unrendered markdown body, while `getPostBySlug` for the same slug
carries the HTML output of the markdown renderer, which contains no raw markdown
heading syntax (no line starting with `# `). -/
theorem list_raw_single_rendered (m : MatterFn) (fs : FileSys) (l : List Post)
    (names : List String) (slug c : String) (data : FrontMatter) (content : String)
    (h : getAllPosts m fs = .ok l)
    (hnames : fs.dirListing = some names)
    (hmem : (slug ++ ".md") ∈ names)
    (hmd : endsWithMd (slug ++ ".md") = true)
    (hstrip : stripMdExt (slug ++ ".md") = slug)
    (hr : fs.readFile (slug ++ ".md") = some c)
    (hc : strTruthy c = true)
    (hm : m c = some (data, content))
    (ht1 : truthy data.title = true) (ht2 : truthy data.date = true)
    (ht3 : truthy data.excerpt = true) :
    (∃ p ∈ l, p.slug = slug ∧ p.content = content) ∧
    (∃ q, getPostBySlug m renderHtml fs slug = some q ∧
        q.content = renderHtml content ∧
        hasRawHeading q.content = false) := by
  constructor
  · have hv := validPostOfFile_valid m fs (slug ++ ".md") c data content hr hc hm ht1 ht2 ht3
    have hperm := getAllPosts_ok_perm m fs l h
    rw [hnames] at hperm
    rw [show (some names).getD [] = names from rfl] at hperm
    refine ⟨mkListPost (slug ++ ".md") data content, ?_, ?_, rfl⟩
    · apply hperm.mem_iff.mpr
      exact List.mem_filterMap.mpr ⟨slug ++ ".md", List.mem_filter.mpr ⟨hmem, hmd⟩, hv⟩
    · show stripMdExt (slug ++ ".md") = slug
      exact hstrip
  · have hq : getPostBySlug m renderHtml fs slug = some
        { slug := slug, title := data.title, date := data.date, excerpt := data.excerpt
          content := renderHtml content
          imageUrl := jsOrDefault data.imageUrl (getPlaceholderImage slug) } := by
      simp only [getPostBySlug, hr, hm]
    exact ⟨_, hq, rfl, hasRawHeading_renderHtml content⟩

/-- Witness for C7 at the fixture file `c.md`, whose body begins with a
markdown heading: the listing carries the raw body, the single-post result is
rendered and free of raw heading syntax. -/
theorem list_raw_single_rendered_witness :
    getAllPosts matterW fsW = .ok postsW ∧
    (postsW.any fun p => decide (p.slug = "c" ∧ p.content = "# head\nbody c")) = true ∧
    (getPostBySlug matterW renderHtml fsW "c").isSome = true ∧
    hasRawHeading (renderHtml "# head\nbody c") = false := by
  obtain ⟨⟨p, hp, hslug, hcontent⟩, ⟨q, hq, hqc, hqh⟩⟩ :=
    list_raw_single_rendered matterW fsW postsW
      ["a.md", "b.md", "c.md", "broken.md", "notes.txt"]
      "c" "C" fmC "# head\nbody c"
      rfl rfl (by decide) rfl rfl rfl rfl rfl rfl rfl rfl
  refine ⟨rfl, ?_, ?_, ?_⟩
  · exact List.any_eq_true.mpr ⟨p, hp, by simp [hslug, hcontent]⟩
  · rw [hq]
    rfl
  · rw [← hqc]
    exact hqh

/-- C9: repository results are memoized per-process with no invalidation: a
populated cache cell is returned as-is by every later call — even against a
filesystem whose files have changed — and the pagination cache behaves the
same per page argument, so a changed file is never reflected until the
process (and with it the explicit cache state) is discarded. -/
theorem repository_memoized_per_process (m : MatterFn) (fs fs2 : FileSys) (page : Int) :
    (∀ cell r, cell = some r → cachedGetAllPosts m fs2 cell = (r, cell)) ∧
    (cachedGetAllPosts m fs2 (cachedGetAllPosts m fs none).2).1 = getAllPosts m fs ∧
    (∀ tbl r, List.lookup page tbl = some r →
        cachedGetPaginatedPosts m fs2 page tbl = (r, tbl)) ∧
    (cachedGetPaginatedPosts m fs2 page
        (cachedGetPaginatedPosts m fs page []).2).1 = getPaginatedPosts m fs page := by
  refine ⟨?_, rfl, ?_, ?_⟩
  · intro cell r hcell
    subst hcell
    rfl
  · intro tbl r hlook
    unfold cachedGetPaginatedPosts
    rw [hlook]
  · show (cachedGetPaginatedPosts m fs2 page [(page, getPaginatedPosts m fs page)]).1 =
      getPaginatedPosts m fs page
    unfold cachedGetPaginatedPosts
    have : List.lookup page [(page, getPaginatedPosts m fs page)] =
        some (getPaginatedPosts m fs page) := by
      unfold List.lookup
      rw [beq_self_eq_true]
    rw [this]

/-- Witness for C9 at the three-file fixture, with the twelve-post filesystem
standing for the changed on-disk content: the second call still returns the
listing of the first filesystem. -/
theorem repository_memoized_per_process_witness :
    cachedGetAllPosts matterW fs12 (some (.ok postsW)) =
      (.ok postsW, some (.ok postsW)) ∧
    (cachedGetAllPosts matterW fs12 (cachedGetAllPosts matterW fsW none).2).1 =
      getAllPosts matterW fsW ∧
    (cachedGetPaginatedPosts matterW fs12 1
        (cachedGetPaginatedPosts matterW fsW 1 []).2).1 =
      getPaginatedPosts matterW fsW 1 := by
  have t := repository_memoized_per_process matterW fsW fs12 1
  exact ⟨t.1 (some (.ok postsW)) (.ok postsW) rfl, t.2.1, t.2.2.2⟩

end Blog
